import Mathlib

/-!
Shallow embedding of `src/app.js` (a browser to-do list application).

JavaScript values that flow through the code (task fields, the parsed
content of the `localStorage` slot, the current filter) are modelled by
the inductive `JsValue`.  Numbers appear in none of the data paths the
claims exercise except as impossible garbage, so they are modelled as
`Int` (no floating point is needed).  `undefined` is a first-class value
because property access on objects lacking a key yields it.
-/

inductive JsValue : Type where
  | undefined : JsValue
  | null : JsValue
  | bool : Bool → JsValue
  | num : Int → JsValue
  | str : String → JsValue
  | arr : List JsValue → JsValue
  | obj : List (String × JsValue) → JsValue

namespace TodoApp

open JsValue

/-- JavaScript truthiness: `undefined`, `null`, `false`, `0` and `""` are
falsy; every other value (including every object and array) is truthy. -/
def truthy : JsValue → Bool
  | .undefined => false
  | .null => false
  | .bool b => b
  | .num n => n != 0
  | .str s => s != ""
  | .arr _ => true
  | .obj _ => true

/-- JavaScript strict equality `===` restricted to the value level.
On primitives it is structural; comparisons involving objects or arrays
are reference comparisons in JavaScript, and since the pure model
represents distinct heap references, they are modelled as `false`
(every claim compares string ids, where this is exact). -/
def jsStrictEq : JsValue → JsValue → Bool
  | .undefined, .undefined => true
  | .null, .null => true
  | .bool a, .bool b => a == b
  | .num a, .num b => a == b
  | .str a, .str b => a == b
  | _, _ => false

/-- First binding of key `k` in an object's field list, `undefined` when
the key is absent (JavaScript object member lookup). -/
def lookupField : List (String × JsValue) → String → JsValue
  | [], _ => .undefined
  | (k', v) :: rest, k => if k' == k then v else lookupField rest k

/-- Property access `v[k]`.  On `null` and `undefined` it throws a
`TypeError`, modelled as `none`; on any other primitive or an array it
yields `undefined` for the claim-relevant keys; on an object it looks the
key up. -/
def jsGet : JsValue → String → Option JsValue
  | .undefined, _ => none
  | .null, _ => none
  | .obj fields, k => some (lookupField fields k)
  | _, _ => some .undefined

/-- Property access with the (guarded) assumption that the receiver is
not `null`/`undefined`; used only under a truthiness guard. -/
def jsGetD (v : JsValue) (k : String) : JsValue :=
  (jsGet v k).getD .undefined

/-- Whitespace as `String.prototype.trim` removes it.  JavaScript strips
the full Unicode WhiteSpace/LineTerminator set; every character any
claim exercises is ASCII, where `Char.isWhitespace` agrees. -/
def jsWhitespaceChar (c : Char) : Bool := c.isWhitespace

/-- Character-list form of trimming: drop whitespace from the front,
then from the back. -/
def trimChars (l : List Char) : List Char :=
  (((l.dropWhile jsWhitespaceChar).reverse.dropWhile jsWhitespaceChar)).reverse

/-- `String.prototype.trim`. -/
def jsTrim (s : String) : String := String.mk (trimChars s.data)

/-- `s.length` of a JavaScript string; the claims only involve text in
the basic plane where UTF-16 unit count and code-point count agree. -/
def jsLength (s : String) : Nat := s.data.length

/-!
The `Task` entity of `app.js`.  `Task.fromObject` copies the five fields
from an arbitrary parsed object without any validation, so a task that
went through storage can carry arbitrary JavaScript values in every
field; the fields are therefore typed `JsValue`.
-/

structure Task : Type where
  id : JsValue
  text : JsValue
  completed : JsValue
  createdAt : JsValue
  updatedAt : JsValue

/-- `Task.isValidText` (`app.js` lines 42-46): the argument must be a
string whose trimmed length is between 1 and 500. -/
def Task.isValidText (v : JsValue) : Bool :=
  match v with
  | .str s => decide (0 < jsLength (jsTrim s)) && decide (jsLength (jsTrim s) ≤ 500)
  | _ => false

/-- Trimmed text of a string value (the constructor only reaches
`text.trim()` once `isValidText` has passed, so the argument is a
string there). -/
def trimOf : JsValue → JsValue
  | .str s => .str (jsTrim s)
  | v => v

/-- `new Task(text)` (`app.js` lines 24-36): throws (modelled `none`)
when the text is invalid; otherwise trims the text, picks a fresh id and
stamps both timestamps with the current time.  Id generation
(`Date.now()` plus randomness) and `new Date().toISOString()` are
environment inputs, passed in as the `freshId` and `now` parameters. -/
def Task.create (text : JsValue) (freshId now : String) : Option Task :=
  if Task.isValidText text then
    some { id := .str freshId, text := trimOf text, completed := .bool false,
           createdAt := .str now, updatedAt := .str now }
  else
    none

/-- `Task.prototype.toggle` (`app.js` lines 56-60): `this.completed =
!this.completed` applies JavaScript negation, i.e. the negated
truthiness of the current value, and refreshes `updatedAt`. -/
def Task.toggle (t : Task) (now : String) : Task :=
  { t with completed := .bool (!truthy t.completed), updatedAt := .str now }

/-- `Task.prototype.updateText` (`app.js` lines 62-69): throws (`none`)
on invalid text; otherwise stores the trimmed text and refreshes
`updatedAt`. -/
def Task.updateText (t : Task) (newText : JsValue) (now : String) : Option Task :=
  if Task.isValidText newText then
    some { t with text := trimOf newText, updatedAt := .str now }
  else
    none

/-- `Task.prototype.toObject` (`app.js` lines 75-83). -/
def Task.toObject (t : Task) : JsValue :=
  .obj [("id", t.id), ("text", t.text), ("completed", t.completed),
        ("createdAt", t.createdAt), ("updatedAt", t.updatedAt)]

/-- `Task.fromObject` (`app.js` lines 89-97): reads the five fields off
the argument with plain property access and no validation.  Property
access on `null`/`undefined` throws a `TypeError`, modelled as `none`;
on any other value each absent field comes back `undefined`. -/
def Task.fromObject (o : JsValue) : Option Task := do
  let i ← jsGet o "id"
  let tx ← jsGet o "text"
  let c ← jsGet o "completed"
  let ca ← jsGet o "createdAt"
  let ua ← jsGet o "updatedAt"
  pure { id := i, text := tx, completed := c, createdAt := ca, updatedAt := ua }

/-!
The persisted slot.  `saveToStorage` writes
`JSON.stringify(dataToSave)` under the fixed key `'todoApp'` and
`loadFromStorage` applies `JSON.parse` to whatever string is stored.
Every stored string either fails `JSON.parse` with a `SyntaxError` or
parses to a unique JSON value, so the slot is modelled at that level: a
stored string is represented by its parse when it has one
(`Slot.value`) and kept as raw text otherwise (`Slot.malformed`, e.g.
the literal text "invalid json data").  `JSON.parse ∘ JSON.stringify`
is not the identity on values containing `undefined`: `stringify` drops
object fields whose value is `undefined` and writes `null` for
`undefined` array elements; `jsonWriteRead` applies exactly that
normalisation to the value being saved.
-/

inductive Slot : Type where
  | empty : Slot
  | malformed : String → Slot
  | value : JsValue → Slot

mutual

/-- The value `JSON.parse(JSON.stringify(v))` produces for a value `v`
appearing as an object field or array element: `undefined`-valued
object fields are dropped, `undefined` array elements become `null`,
everything else is kept structurally. -/
def jsonWriteRead : JsValue → JsValue
  | .arr es => .arr (jsonWriteReadList es)
  | .obj fs => .obj (jsonWriteReadFields fs)
  | v => v

/-- `jsonWriteRead` over the elements of an array. -/
def jsonWriteReadList : List JsValue → List JsValue
  | [] => []
  | e :: es =>
      (match e with
       | .undefined => .null
       | _ => jsonWriteRead e) :: jsonWriteReadList es

/-- `jsonWriteRead` over the fields of an object. -/
def jsonWriteReadFields : List (String × JsValue) → List (String × JsValue)
  | [] => []
  | (k, v) :: fs =>
      match v with
      | .undefined => jsonWriteReadFields fs
      | _ => (k, jsonWriteRead v) :: jsonWriteReadFields fs

end

/-!
Application state.  The relevant mutable state of `app.js` is the
`TaskList` instance's `tasks` array, the global
`appState.currentFilter` (written by `loadFromStorage` and read by
`saveToStorage` and `getFilteredTasks` through `renderTasks`), and the
`localStorage` slot under the key `'todoApp'`.  The model assumes the
availability check (`typeof Storage === 'undefined' || !localStorage`)
passes and writes do not hit a quota, which is the environment every
claim describes; `renderTasks`, `updateFilterButtons` and the console
calls touch only the DOM and are omitted as state-irrelevant (each
catches its own errors and cannot throw into the store operations). -/
structure St : Type where
  tasks : List Task
  currentFilter : JsValue
  slot : Slot

/-- The object `dataToSave` built by `saveToStorage` (`app.js` lines
350-357); `lastSaved` is `new Date().toISOString()`, an environment
input passed as `now`. -/
def dataToSave (st : St) (now : String) : JsValue :=
  .obj [("tasks", .arr (st.tasks.map Task.toObject)),
        ("version", .str "1.0.0"),
        ("lastSaved", .str now),
        ("settings", .obj [("currentFilter", st.currentFilter)])]

/-- `TaskList.prototype.saveToStorage` (`app.js` lines 341-375): builds
`dataToSave` and stores its `JSON.stringify` under `'todoApp'`,
returning `true`. -/
def saveToStorage (st : St) (now : String) : Bool × St :=
  (true, { st with slot := .value (jsonWriteRead (dataToSave st now)) })

/-- Body of `loadFromStorage` from `JSON.parse` on (`app.js` lines
398-418), for the case in which the stored string parsed to `v`.
`none` models a thrown `TypeError` (property access on a `null` array
element inside `Task.fromObject`), which the surrounding `catch`
turns into a plain `false` return.  The structure check
`!parsedData || !Array.isArray(parsedData.tasks)` returns `false`
before touching anything else; only after the whole `tasks.map`
succeeds is `this.tasks` replaced, and then the filter is restored
from `parsedData.settings.currentFilter || 'all'` when `settings` is
truthy. -/
def loadParsed (st : St) (v : JsValue) : Option (Bool × St) := do
  if !truthy v then
    return (false, st)
  let tasksV ← jsGet v "tasks"
  match tasksV with
  | .arr es =>
      let ts ← es.mapM Task.fromObject
      let st1 : St := { st with tasks := ts }
      let settingsV ← jsGet v "settings"
      if truthy settingsV then
        let c ← jsGet settingsV "currentFilter"
        return (true, { st1 with currentFilter := if truthy c then c else .str "all" })
      else
        return (true, st1)
  | _ => return (false, st)

/-- `TaskList.prototype.loadFromStorage` (`app.js` lines 381-430).  An
empty slot is a success with nothing to do.  A stored string that fails
`JSON.parse` raises a `SyntaxError`, which the `catch` block answers by
removing the stored item and returning `false`.  Any other exception
out of the body (a `TypeError` from `Task.fromObject`) is caught but,
not being a `SyntaxError`, leaves the slot in place and returns
`false`. -/
def loadFromStorage (st : St) : Bool × St :=
  match st.slot with
  | .empty => (true, st)
  | .malformed _ => (false, { st with slot := .empty })
  | .value v =>
      match loadParsed st v with
      | some r => r
      | none => (false, st)

/-!
The CRUD operations of `TaskList`.  Fresh ids and timestamps are
environment inputs threaded as parameters.  Each operation that the
code routes through `saveToStorage` does so here as well;
`renderTasks` is DOM-only and omitted.
-/

/-- `TaskList.prototype.addTask` (`app.js` lines 115-138): validates,
constructs the task, pushes it at the end, saves and returns the task;
on invalid text it returns `null` having changed nothing. -/
def addTask (st : St) (text : JsValue) (freshId now : String) : Option Task × St :=
  if !Task.isValidText text then
    (none, st)
  else
    match Task.create text freshId now with
    | none => (none, st)
    | some task =>
        let st1 : St := { st with tasks := st.tasks ++ [task] }
        (some task, (saveToStorage st1 now).2)

/-- `TaskList.prototype.deleteTask` (`app.js` lines 144-167): replaces
`this.tasks` with the array of tasks whose id is not strictly equal to
the argument, reports whether the length dropped, and saves only when
it did. -/
def deleteTask (st : St) (target : JsValue) (now : String) : Bool × St :=
  let remaining := st.tasks.filter (fun t => !jsStrictEq t.id target)
  let deleted := decide (remaining.length < st.tasks.length)
  let st1 : St := { st with tasks := remaining }
  if deleted then (true, (saveToStorage st1 now).2) else (false, st1)

/-- Replace the first task satisfying `p` by `f` applied to it,
modelling the in-place mutation of the task `Array.prototype.find`
returned. -/
def replaceFirst (p : Task → Bool) (f : Task → Task) : List Task → List Task
  | [] => []
  | t :: ts => if p t then f t :: ts else t :: replaceFirst p f ts

/-- `TaskList.prototype.toggleTask` (`app.js` lines 173-196): finds the
first task with the given id, toggles it in place, saves and returns
it; an absent id returns `null` with no state change. -/
def toggleTask (st : St) (target : JsValue) (now : String) : Option Task × St :=
  match st.tasks.find? (fun t => jsStrictEq t.id target) with
  | none => (none, st)
  | some t =>
      let t' := t.toggle now
      let st1 : St :=
        { st with tasks := replaceFirst (fun u => jsStrictEq u.id target) (fun _ => t') st.tasks }
      (some t', (saveToStorage st1 now).2)

/-- `TaskList.prototype.editTask` (`app.js` lines 202-218): finds the
first task with the given id and applies `updateText` in place; the
`updateText` throw on invalid text is caught and answered with `null`,
leaving everything unchanged.  No save is triggered by this
operation. -/
def editTask (st : St) (target : JsValue) (newText : JsValue) (now : String) :
    Option Task × St :=
  match st.tasks.find? (fun t => jsStrictEq t.id target) with
  | none => (none, st)
  | some t =>
      match t.updateText newText now with
      | none => (none, st)
      | some t' =>
          (some t',
           { st with tasks := replaceFirst (fun u => jsStrictEq u.id target) (fun _ => t') st.tasks })

/-- `TaskList.prototype.getAllTasks` (`app.js` lines 224-226): a fresh
array with the same elements. -/
def getAllTasks (st : St) : List Task := st.tasks

/-- `TaskList.prototype.getFilteredTasks` (`app.js` lines 231-241): a
`switch` on the filter with strict-equality cases `'active'` and
`'completed'`; every other value falls through to a copy of the full
collection. -/
def getFilteredTasks (st : St) (filter : JsValue) : List Task :=
  if jsStrictEq filter (.str "active") then
    st.tasks.filter (fun t => !truthy t.completed)
  else if jsStrictEq filter (.str "completed") then
    st.tasks.filter (fun t => truthy t.completed)
  else
    st.tasks

/-!
Reference-level view of the collection, for claims about aliasing.
The value-level `St` above cannot distinguish a deep copy from a
shallow one, but `getAllTasks` returns `[...this.tasks]`: a fresh
array whose elements are the store's own `Task` objects.  `RefStore`
makes that visible: `heap` holds the allocated `Task` objects (a
reference is an index into it) and `taskRefs` is the `this.tasks`
array of references.  `observedRefTasks` is the collection as the
store sees it; `writeRef` is a field mutation performed through a
reference, which is what a caller does when it assigns to a field of a
task object obtained from a returned array. -/
structure RefStore : Type where
  heap : List Task
  taskRefs : List Nat

/-- Dereference a task reference (total with a dummy default; theorems
carry the in-bounds side conditions). -/
def heapGet (st : RefStore) (r : Nat) : Task :=
  st.heap.getD r { id := .undefined, text := .undefined, completed := .undefined,
                   createdAt := .undefined, updatedAt := .undefined }

/-- The store's collection as observed through its references. -/
def observedRefTasks (st : RefStore) : List Task :=
  st.taskRefs.map (heapGet st)

/-- Mutation of the task object behind reference `r` (e.g. the caller
runs `returned[i].completed = true`). -/
def writeRef (st : RefStore) (r : Nat) (t : Task) : RefStore :=
  { st with heap := st.heap.set r t }

/-- `getAllTasks` at the reference level: `[...this.tasks]` is a new
array containing exactly the store's own references. -/
def getAllTaskRefs (st : RefStore) : List Nat := st.taskRefs

/-- `getFilteredTasks` at the reference level: `Array.prototype.filter`
also returns a new array whose elements are the store's own
references. -/
def getFilteredTaskRefs (st : RefStore) (filter : JsValue) : List Nat :=
  if jsStrictEq filter (.str "active") then
    st.taskRefs.filter (fun r => !truthy (heapGet st r).completed)
  else if jsStrictEq filter (.str "completed") then
    st.taskRefs.filter (fun r => truthy (heapGet st r).completed)
  else
    st.taskRefs

/-!
Validity of states, as the spec's data model describes the store's
steady state: every task was produced by the store (string id, valid
text, boolean completion flag, string timestamps), ids are pairwise
distinct, and the filter is one of the three legal selections.
-/

/-- The value is a JavaScript string. -/
def isStr : JsValue → Bool
  | .str _ => true
  | _ => false

/-- The value is a JavaScript boolean. -/
def isBool : JsValue → Bool
  | .bool _ => true
  | _ => false

/-- A task shaped the way the store's own operations produce tasks. -/
def Task.wf (t : Task) : Bool :=
  isStr t.id && Task.isValidText t.text && isBool t.completed &&
    isStr t.createdAt && isStr t.updatedAt

/-- No two tasks of the list carry strictly-equal ids. -/
def distinctIds : List Task → Bool
  | [] => true
  | t :: ts => ts.all (fun u => !jsStrictEq t.id u.id) && distinctIds ts

/-- The filter is one of the three legal selections. -/
def validFilter (v : JsValue) : Bool :=
  jsStrictEq v (.str "all") || jsStrictEq v (.str "active") ||
    jsStrictEq v (.str "completed")

/-- Every task's text passes `Task.isValidText`. -/
def textsValid (ts : List Task) : Bool :=
  ts.all (fun t => Task.isValidText t.text)

/-!
Concrete states used by witnesses and counterexamples.
-/

/-- An incomplete well-formed task. -/
def sampleTask1 : Task :=
  { id := .str "task_100_aaaaaaaaa", text := .str "Buy milk", completed := .bool false,
    createdAt := .str "2025-09-20T10:00:00.000Z", updatedAt := .str "2025-09-20T10:00:00.000Z" }

/-- A completed well-formed task with a different id. -/
def sampleTask2 : Task :=
  { id := .str "task_200_bbbbbbbbb", text := .str "Walk dog", completed := .bool true,
    createdAt := .str "2025-09-20T10:05:00.000Z", updatedAt := .str "2025-09-20T10:06:00.000Z" }

/-- A small well-formed application state. -/
def sampleSt : St :=
  { tasks := [sampleTask1, sampleTask2], currentFilter := .str "all", slot := .empty }

/-- A state whose slot holds the string "\x7b\x7d": it parses (to an
empty object) but lacks the expected structure. -/
def storedShapeBadSt : St :=
  { tasks := [], currentFilter := .str "all", slot := .value (.obj []) }

/-- A state whose slot holds the literal text "invalid json data",
which `JSON.parse` rejects. -/
def storedMalformedSt : St :=
  { tasks := [], currentFilter := .str "all",
    slot := .malformed "invalid json data" }

/-- A state whose slot parses to an object with a tasks array whose
single element is JSON `null`. -/
def storedNullTaskSt : St :=
  { tasks := [], currentFilter := .str "all",
    slot := .value (.obj [("tasks", .arr [.null])]) }

/-- A reference-level store holding one incomplete task. -/
def sampleRefSt : RefStore :=
  { heap := [sampleTask1], taskRefs := [0] }

/-- The value is a JavaScript array (`Array.isArray`). -/
def isArr : JsValue → Bool
  | .arr _ => true
  | _ => false

/-- The structure check of `loadFromStorage` (`app.js` line 401):
`parsedData` is truthy and `parsedData.tasks` is an array. -/
def hasTasksArray (v : JsValue) : Bool :=
  truthy v && isArr (jsGetD v "tasks")

/-- The value is neither `null` nor `undefined`, i.e. property access
on it does not throw. -/
def notNullish : JsValue → Bool
  | .null => false
  | .undefined => false
  | _ => true

/-- The task `Task.fromObject` builds from a non-nullish value: the
five fields read off verbatim, absent ones `undefined`. -/
def rawTask (e : JsValue) : Task :=
  { id := jsGetD e "id", text := jsGetD e "text", completed := jsGetD e "completed",
    createdAt := jsGetD e "createdAt", updatedAt := jsGetD e "updatedAt" }

/-- A string of 501 characters (the over-limit text of the claims). -/
def longText : String := String.mk (List.replicate 501 'a')

/-- A state whose slot parses to an object carrying two structurally
invalid tasks (empty text, duplicated id, numeric completion flag) and
a settings object. -/
def garbageStoredSt : St :=
  { tasks := [], currentFilter := .str "all",
    slot := .value (.obj
      [("tasks", .arr
          [.obj [("id", .str "dup"), ("text", .str "")],
           .obj [("id", .str "dup"), ("text", .str "x"), ("completed", .num 7)]]),
       ("settings", .obj [("currentFilter", .str "completed")])]) }

/-!
Helper lemmas about the JavaScript value primitives.
-/

theorem jsStrictEq_str_iff (v : JsValue) (s : String) :
    jsStrictEq v (.str s) = true ↔ v = .str s := by
  cases v <;> simp [jsStrictEq]

theorem truthy_jsGet (v : JsValue) (k : String) (h : truthy v = true) :
    jsGet v k = some (jsGetD v k) := by
  cases v <;> simp_all [truthy, jsGet, jsGetD]

theorem isStr_exists {v : JsValue} (h : isStr v = true) : ∃ s, v = .str s := by
  cases v <;> simp_all [isStr]

theorem isBool_exists {v : JsValue} (h : isBool v = true) : ∃ b, v = .bool b := by
  cases v <;> simp_all [isBool]

theorem isValidText_isStr {v : JsValue} (h : Task.isValidText v = true) :
    ∃ s, v = .str s := by
  cases v <;> simp_all [Task.isValidText]

/-!
Idempotence of trimming: the text the store keeps is already trimmed,
so re-validating it succeeds.  Proved at the character-list level.
-/

theorem dropWhile_decompose {α : Type} (p : α → Bool) (l : List α) :
    ∃ u, u ++ l.dropWhile p = l := by
  induction l with
  | nil => exact ⟨[], rfl⟩
  | cons a t ih =>
    by_cases h : p a = true
    · obtain ⟨u, hu⟩ := ih
      exact ⟨a :: u, by simp [List.dropWhile_cons, h, hu]⟩
    · exact ⟨[], by simp [List.dropWhile_cons, h]⟩

theorem dropWhile_head_false {α : Type} (p : α → Bool) (l : List α) (a : α) (t : List α)
    (h : l.dropWhile p = a :: t) : p a = false := by
  induction l with
  | nil => simp [List.dropWhile] at h
  | cons b u ih =>
    rw [List.dropWhile_cons] at h
    split at h
    · exact ih h
    · next hb =>
        injection h with h1 _
        subst h1
        simpa using hb

theorem dropWhile_idem {α : Type} (p : α → Bool) (l : List α) :
    (l.dropWhile p).dropWhile p = l.dropWhile p := by
  cases h : l.dropWhile p with
  | nil => simp
  | cons a t =>
    have hpa := dropWhile_head_false p l a t h
    simp [List.dropWhile_cons, hpa]

theorem trimChars_head_false (l : List Char) (a : Char) (t : List Char)
    (h : trimChars l = a :: t) : jsWhitespaceChar a = false := by
  obtain ⟨u, hu⟩ :=
    dropWhile_decompose jsWhitespaceChar (l.dropWhile jsWhitespaceChar).reverse
  have hd : l.dropWhile jsWhitespaceChar = trimChars l ++ u.reverse := by
    have h2 := congrArg List.reverse hu
    simp only [List.reverse_append, List.reverse_reverse] at h2
    exact h2.symm
  rw [h] at hd
  exact dropWhile_head_false _ l a (t ++ u.reverse) (by simpa using hd)

theorem trimChars_idem (l : List Char) : trimChars (trimChars l) = trimChars l := by
  have hA : (trimChars l).dropWhile jsWhitespaceChar = trimChars l := by
    cases hr : trimChars l with
    | nil => simp
    | cons a t =>
      have hpa := trimChars_head_false l a t hr
      simp [List.dropWhile_cons, hpa]
  calc trimChars (trimChars l)
      = (((trimChars l).dropWhile jsWhitespaceChar).reverse.dropWhile
          jsWhitespaceChar).reverse := rfl
    _ = ((trimChars l).reverse.dropWhile jsWhitespaceChar).reverse := by rw [hA]
    _ = (((l.dropWhile jsWhitespaceChar).reverse.dropWhile jsWhitespaceChar).dropWhile
          jsWhitespaceChar).reverse := by simp [trimChars]
    _ = ((l.dropWhile jsWhitespaceChar).reverse.dropWhile jsWhitespaceChar).reverse := by
          rw [dropWhile_idem]
    _ = trimChars l := rfl

theorem jsTrim_idem (s : String) : jsTrim (jsTrim s) = jsTrim s := by
  show String.mk (trimChars (trimChars s.data)) = String.mk (trimChars s.data)
  rw [trimChars_idem]

theorem isValidText_jsTrim (s : String) (h : Task.isValidText (.str s) = true) :
    Task.isValidText (.str (jsTrim s)) = true := by
  simp only [Task.isValidText, jsTrim_idem]
  simpa only [Task.isValidText] using h

/-!
Round-trip lemmas: serialisation of a well-formed task survives
`JSON.stringify`/`JSON.parse` unchanged, and `Task.fromObject` undoes
`Task.toObject`.
-/

theorem jsonWriteRead_toObject (t : Task) (h : t.wf = true) :
    jsonWriteRead t.toObject = t.toObject := by
  simp only [Task.wf, Bool.and_eq_true] at h
  obtain ⟨⟨⟨⟨h1, h2⟩, h3⟩, h4⟩, h5⟩ := h
  obtain ⟨s1, e1⟩ := isStr_exists h1
  obtain ⟨s2, e2⟩ := isValidText_isStr h2
  obtain ⟨b3, e3⟩ := isBool_exists h3
  obtain ⟨s4, e4⟩ := isStr_exists h4
  obtain ⟨s5, e5⟩ := isStr_exists h5
  simp [Task.toObject, e1, e2, e3, e4, e5, jsonWriteRead, jsonWriteReadFields]

theorem jsonWriteReadList_toObject (ts : List Task) (h : ts.all Task.wf = true) :
    jsonWriteReadList (ts.map Task.toObject) = ts.map Task.toObject := by
  induction ts with
  | nil => rfl
  | cons t rest ih =>
    simp only [List.all_cons, Bool.and_eq_true] at h
    simp only [List.map_cons, jsonWriteReadList]
    rw [ih h.2]
    have hwr := jsonWriteRead_toObject t h.1
    simp [Task.toObject] at hwr ⊢
    exact hwr

theorem fromObject_toObject (t : Task) : Task.fromObject t.toObject = some t := by
  rfl

theorem mapM_fromObject_toObject (ts : List Task) :
    (ts.map Task.toObject).mapM Task.fromObject = some ts := by
  induction ts with
  | nil => rfl
  | cons t rest ih =>
    simp only [List.map_cons, List.mapM_cons, fromObject_toObject, ih]
    rfl

theorem validFilter_truthy (v : JsValue) (h : validFilter v = true) :
    truthy v = true := by
  simp only [validFilter, Bool.or_eq_true] at h
  rcases h with (h | h) | h <;>
    (rw [(jsStrictEq_str_iff v _).mp h]; rfl)

theorem loadParsed_dataToSave (stA st : St) (now : String)
    (hf : validFilter st.currentFilter = true) :
    loadParsed stA (dataToSave st now)
      = some (true, { stA with tasks := st.tasks, currentFilter := st.currentFilter }) := by
  have htr := validFilter_truthy _ hf
  have e1 : jsGet (dataToSave st now) "tasks"
      = some (.arr (st.tasks.map Task.toObject)) := rfl
  have e2 : jsGet (dataToSave st now) "settings"
      = some (.obj [("currentFilter", st.currentFilter)]) := rfl
  have e3 : truthy (dataToSave st now) = true := rfl
  have e4 : jsGet (.obj [("currentFilter", st.currentFilter)]) "currentFilter"
      = some st.currentFilter := rfl
  have e5 : truthy (.obj [("currentFilter", st.currentFilter)]) = true := rfl
  simp only [loadParsed, e1, e2, e3, Bool.not_true, Bool.false_eq_true, if_false,
    Option.bind_eq_bind, Option.bind_some]
  simp only [Option.pure_def, Option.some_bind]
  rw [mapM_fromObject_toObject]
  simp only [Option.some_bind, e4, e5, htr, if_true]

theorem jsonWriteRead_dataToSave (st : St) (now : String)
    (hwf : st.tasks.all Task.wf = true) (hf : validFilter st.currentFilter = true) :
    jsonWriteRead (dataToSave st now) = dataToSave st now := by
  obtain ⟨s, hs⟩ : ∃ s, st.currentFilter = JsValue.str s := by
    simp only [validFilter, Bool.or_eq_true] at hf
    rcases hf with (h | h) | h <;> exact ⟨_, (jsStrictEq_str_iff _ _).mp h⟩
  simp [dataToSave, jsonWriteRead, jsonWriteReadFields, hs,
    jsonWriteReadList_toObject st.tasks hwf]

theorem loadFromStorage_slot_empty (stA : St) (h : stA.slot = .empty) :
    loadFromStorage stA = (true, stA) := by
  obtain ⟨ts, cf, sl⟩ := stA
  replace h : sl = .empty := h
  subst h
  rfl

theorem loadFromStorage_slot_malformed (stA : St) (raw : String)
    (h : stA.slot = .malformed raw) :
    loadFromStorage stA = (false, { stA with slot := .empty }) := by
  obtain ⟨ts, cf, sl⟩ := stA
  replace h : sl = .malformed raw := h
  subst h
  rfl

theorem loadFromStorage_slot_value (stA : St) (v : JsValue)
    (h : stA.slot = .value v) :
    loadFromStorage stA
      = match loadParsed stA v with
        | some r => r
        | none => (false, stA) := by
  obtain ⟨ts, cf, sl⟩ := stA
  replace h : sl = .value v := h
  subst h
  rfl

/-- C1.  Persistence round-trip: starting from any valid state (every
task well-formed with non-empty trimmed text of at most 500
characters, pairwise distinct ids, a legal filter selection), saving
via `saveToStorage` and then loading via `loadFromStorage` succeeds
and reconstructs the task collection field-for-field and restores the
filter setting. -/
theorem c1_persistence_roundtrip (st : St) (now : String)
    (hwf : st.tasks.all Task.wf = true)
    (_hids : distinctIds st.tasks = true)
    (hf : validFilter st.currentFilter = true) :
    (saveToStorage st now).1 = true ∧
    (loadFromStorage (saveToStorage st now).2).1 = true ∧
    (loadFromStorage (saveToStorage st now).2).2.tasks = st.tasks ∧
    (loadFromStorage (saveToStorage st now).2).2.currentFilter = st.currentFilter := by
  have hsave : (saveToStorage st now).2.slot = .value (dataToSave st now) := by
    simp only [saveToStorage]
    rw [jsonWriteRead_dataToSave st now hwf hf]
  have hload : loadFromStorage (saveToStorage st now).2
      = (true, { (saveToStorage st now).2 with
                  tasks := st.tasks, currentFilter := st.currentFilter }) := by
    rw [loadFromStorage_slot_value _ _ hsave,
      loadParsed_dataToSave (saveToStorage st now).2 st now hf]
  exact ⟨rfl, by rw [hload], by rw [hload], by rw [hload]⟩

/-- C1 witness: the round-trip theorem applied to the concrete
two-task state. -/
theorem c1_persistence_roundtrip_witness :
    (sampleSt.tasks.all Task.wf = true ∧ distinctIds sampleSt.tasks = true ∧
      validFilter sampleSt.currentFilter = true) ∧
    (loadFromStorage (saveToStorage sampleSt "t5").2).1 = true ∧
    (loadFromStorage (saveToStorage sampleSt "t5").2).2.tasks = sampleSt.tasks ∧
    (loadFromStorage (saveToStorage sampleSt "t5").2).2.currentFilter
      = sampleSt.currentFilter := by
  refine ⟨⟨by decide, by decide, by decide⟩, ?_⟩
  exact (c1_persistence_roundtrip sampleSt "t5" (by decide) (by decide) (by decide)).2

theorem loadParsed_shape_bad (stA : St) (v : JsValue)
    (h : hasTasksArray v = false) : loadParsed stA v = some (false, stA) := by
  by_cases ht : truthy v = true
  · have harr : isArr (jsGetD v "tasks") = false := by
      simpa [hasTasksArray, ht] using h
    have hg := truthy_jsGet v "tasks" ht
    simp only [loadParsed, ht, Bool.not_true, Bool.false_eq_true, if_false,
      Option.bind_eq_bind, hg, Option.pure_def, Option.some_bind]
    cases hv : jsGetD v "tasks" <;> simp_all [isArr]
  · have ht' : truthy v = false := by simpa using ht
    simp [loadParsed, ht']

/-- C2 counterexample: a stored value (the two-character string
holding an empty JSON object) that is present and not parseable as the
expected structure, on which `loadFromStorage` does NOT clear the
stored slot — it returns `false` with the state, slot included,
untouched, contradicting the claim that every such value gets the
slot cleared. -/
theorem c2_shape_bad_slot_not_cleared :
    loadFromStorage storedShapeBadSt = (false, storedShapeBadSt) ∧
    storedShapeBadSt.slot ≠ Slot.empty := by
  exact ⟨rfl, fun h => Slot.noConfusion h⟩

/-- C2 amended.  A stored value that fails JSON parsing (such as the
literal text "invalid json data") makes `loadFromStorage` clear the
stored slot and return `false`; a stored value that parses but lacks
the expected structure makes it return `false` with the slot left in
place.  In both cases nothing is raised past the adapter boundary and
the in-memory task collection is untouched (so a caller that started
empty proceeds with an empty task list). -/
theorem c2_corrupt_load_amended (stM stS : St) (raw : String) (v : JsValue)
    (hM : stM.slot = .malformed raw)
    (hS : stS.slot = .value v) (hshape : hasTasksArray v = false) :
    loadFromStorage stM = (false, { stM with slot := .empty }) ∧
    loadFromStorage stS = (false, stS) := by
  refine ⟨loadFromStorage_slot_malformed stM raw hM, ?_⟩
  rw [loadFromStorage_slot_value stS v hS, loadParsed_shape_bad stS v hshape]

/-- C2 witness: the amended behaviour at the state storing the literal
text "invalid json data" and at the state storing an empty JSON
object. -/
theorem c2_corrupt_load_amended_witness :
    loadFromStorage storedMalformedSt
      = (false, { storedMalformedSt with slot := .empty }) ∧
    loadFromStorage storedShapeBadSt = (false, storedShapeBadSt) := by
  exact c2_corrupt_load_amended storedMalformedSt storedShapeBadSt
    "invalid json data" (.obj []) rfl rfl (by decide)

/-- C3.  For every string that is non-empty after trimming with
trimmed length at most 500, `addTask` returns a task whose text is the
trimmed string and whose completion flag is `false`, and the
collection grows by exactly one, the new task appended at the end. -/
theorem c3_addTask_valid (st : St) (s fid now : String)
    (hv : Task.isValidText (.str s) = true) :
    (addTask st (.str s) fid now).1
      = some { id := .str fid, text := .str (jsTrim s), completed := .bool false,
               createdAt := .str now, updatedAt := .str now } ∧
    (addTask st (.str s) fid now).2.tasks
      = st.tasks ++ [{ id := .str fid, text := .str (jsTrim s), completed := .bool false,
                       createdAt := .str now, updatedAt := .str now }] ∧
    (addTask st (.str s) fid now).2.tasks.length = st.tasks.length + 1 := by
  refine ⟨?_, ?_, ?_⟩ <;>
    simp [addTask, hv, Task.create, trimOf, saveToStorage]

/-- C3 witness: adding the untrimmed text "  hello world  " to the
concrete two-task state. -/
theorem c3_addTask_valid_witness :
    Task.isValidText (.str "  hello world  ") = true ∧
    (addTask sampleSt (.str "  hello world  ") "task_9" "t9").1
      = some { id := .str "task_9", text := .str (jsTrim "  hello world  "),
               completed := .bool false, createdAt := .str "t9", updatedAt := .str "t9" } ∧
    (addTask sampleSt (.str "  hello world  ") "task_9" "t9").2.tasks.length
      = sampleSt.tasks.length + 1 := by
  have h := c3_addTask_valid sampleSt "  hello world  " "task_9" "t9" (by decide)
  exact ⟨by decide, h.1, h.2.2⟩

-- Raised recursion limit: evaluating validation on the concrete
-- 501-character text unfolds 501 list constructors.
set_option maxRecDepth 4000

/-- C4.  Adding the empty string, a whitespace-only string, or a
501-character text each returns the failure sentinel `none` (the model
is total, so no exception escapes) and leaves the state, in particular
the collection size, unchanged. -/
theorem c4_addTask_rejects (st : St) (fid now : String) :
    addTask st (.str "") fid now = (none, st) ∧
    addTask st (.str "   ") fid now = (none, st) ∧
    addTask st (.str longText) fid now = (none, st) := by
  have h1 : Task.isValidText (.str "") = false := by decide
  have h2 : Task.isValidText (.str "   ") = false := by decide
  have h3 : Task.isValidText (.str longText) = false := by decide
  exact ⟨by simp [addTask, h1], by simp [addTask, h2], by simp [addTask, h3]⟩

theorem find?_replaceFirst (p : Task → Bool) (t t' : Task) (l : List Task)
    (h : l.find? p = some t) (hp : p t' = true) :
    (replaceFirst p (fun _ => t') l).find? p = some t' := by
  induction l with
  | nil => simp [List.find?_nil] at h
  | cons a rest ih =>
    by_cases hpa : p a = true
    · simp [replaceFirst, hpa, List.find?_cons_of_pos _ hp]
    · have hpa' : p a = false := by simpa using hpa
      rw [List.find?_cons_of_neg _ hpa] at h
      simp only [replaceFirst, hpa', Bool.false_eq_true, if_false]
      rw [List.find?_cons_of_neg _ hpa]
      exact ih h

/-- C5.  Toggling a present id answers the found task with its
completion flag flipped and its `updatedAt` refreshed (hence changed,
the clock having moved); toggling the same id twice restores the
original completion value; toggling an absent id returns `none` and
changes nothing. -/
theorem c5_toggleTask (st : St) (i : String) (t : Task) (b : Bool) (now now2 : String)
    (hfind : st.tasks.find? (fun u => jsStrictEq u.id (.str i)) = some t)
    (hb : t.completed = .bool b)
    (hnow : t.updatedAt ≠ .str now) :
    (toggleTask st (.str i) now).1 = some (t.toggle now) ∧
    (t.toggle now).completed = .bool (!b) ∧
    (t.toggle now).updatedAt ≠ t.updatedAt ∧
    ((toggleTask (toggleTask st (.str i) now).2 (.str i) now2).1.map
        (fun u => u.completed)) = some (.bool b) ∧
    (∀ j : String, st.tasks.find? (fun u => jsStrictEq u.id (.str j)) = none →
      toggleTask st (.str j) now = (none, st)) := by
  have hp' : jsStrictEq (t.toggle now).id (.str i) = true := by
    have hpt := List.find?_some hfind
    simpa [Task.toggle] using hpt
  have hfind2 : ((toggleTask st (.str i) now).2).tasks.find?
      (fun u => jsStrictEq u.id (.str i)) = some (t.toggle now) := by
    simp only [toggleTask, hfind, saveToStorage]
    exact find?_replaceFirst _ t _ _ hfind hp'
  refine ⟨by simp [toggleTask, hfind], ?_, ?_, ?_, ?_⟩
  · simp [Task.toggle, hb, truthy]
  · simpa [Task.toggle] using (Ne.symm hnow)
  · set Y := (toggleTask st (.str i) now).2 with hY
    simp only [toggleTask, hfind2]
    simp [Task.toggle, truthy, hb, Bool.not_not]
  · intro j hj
    simp [toggleTask, hj]

/-- C5 witness: toggling the concrete incomplete task once and twice,
and toggling an absent id. -/
theorem c5_toggleTask_witness :
    (toggleTask sampleSt (.str "task_100_aaaaaaaaa") "t7").1
      = some (sampleTask1.toggle "t7") ∧
    (sampleTask1.toggle "t7").completed = .bool true ∧
    ((toggleTask (toggleTask sampleSt (.str "task_100_aaaaaaaaa") "t7").2
        (.str "task_100_aaaaaaaaa") "t8").1.map (fun u => u.completed))
      = some (.bool false) ∧
    toggleTask sampleSt (.str "task_absent") "t7" = (none, sampleSt) := by
  have h := c5_toggleTask sampleSt "task_100_aaaaaaaaa" sampleTask1 false "t7" "t8"
    rfl rfl (by simp [sampleTask1])
  exact ⟨h.1, h.2.1, h.2.2.2.1, h.2.2.2.2 "task_absent" rfl⟩

theorem eq_of_jsStrictEq {a b : JsValue} (h : jsStrictEq a b = true) : a = b := by
  cases a <;> cases b <;> simp_all [jsStrictEq]

theorem jsStrictEq_self_of_left {a b : JsValue} (h : jsStrictEq a b = true) :
    jsStrictEq a a = true := by
  cases a <;> cases b <;> simp_all [jsStrictEq]

theorem countP_id_eq_one (i : JsValue) (l : List Task)
    (hd : distinctIds l = true)
    (hp : l.any (fun t => jsStrictEq t.id i) = true) :
    l.countP (fun t => jsStrictEq t.id i) = 1 := by
  induction l with
  | nil => simp at hp
  | cons a rest ih =>
    simp only [distinctIds, Bool.and_eq_true, List.all_eq_true] at hd
    obtain ⟨hall, hrest⟩ := hd
    by_cases hpa : jsStrictEq a.id i = true
    · have hzero : rest.countP (fun t => jsStrictEq t.id i) = 0 := by
        rw [List.countP_eq_zero]
        intro u hu hui
        have h1 : a.id = i := eq_of_jsStrictEq hpa
        have h2 : u.id = i := eq_of_jsStrictEq hui
        have haui : jsStrictEq a.id u.id = true := by
          rw [h1, h2]
          rw [h2] at hui
          exact jsStrictEq_self_of_left hui
        have hcontra := hall u hu
        rw [haui] at hcontra
        simp at hcontra
      rw [List.countP_cons_of_pos (fun t => jsStrictEq t.id i) rest hpa, hzero]
    · rw [List.countP_cons_of_neg (fun t => jsStrictEq t.id i) rest hpa]
      have hpa' : jsStrictEq a.id i = false := by simpa using hpa
      simp only [List.any_cons, hpa', Bool.false_or] at hp
      exact ih hrest hp

/-- C6.  Deleting a present id (in a store whose ids are pairwise
distinct) removes exactly one task and returns `true`; deleting an
absent id returns `false` with the collection unchanged, so repeating
a successful delete is a no-op returning `false`. -/
theorem c6_deleteTask (st : St) (i : JsValue) (now now2 : String)
    (hd : distinctIds st.tasks = true)
    (hp : st.tasks.any (fun t => jsStrictEq t.id i) = true) :
    (deleteTask st i now).1 = true ∧
    (deleteTask st i now).2.tasks.length + 1 = st.tasks.length ∧
    deleteTask (deleteTask st i now).2 i now2 = (false, (deleteTask st i now).2) ∧
    (∀ j : JsValue, st.tasks.all (fun t => !jsStrictEq t.id j) = true →
      deleteTask st j now = (false, st)) := by
  have hcount := countP_id_eq_one i st.tasks hd hp
  have hsplit := List.length_eq_countP_add_countP (fun t => jsStrictEq t.id i) st.tasks
  have hneg : (st.tasks.countP fun a => decide ¬(jsStrictEq a.id i) = true)
      = st.tasks.countP (fun t => !jsStrictEq t.id i) := by
    apply List.countP_congr
    intro a _
    simp [decide_not]
  have hfl : (st.tasks.filter (fun t => !jsStrictEq t.id i)).length
      = st.tasks.countP (fun t => !jsStrictEq t.id i) :=
    (List.countP_eq_length_filter _ _).symm
  have hlen : (st.tasks.filter (fun t => !jsStrictEq t.id i)).length + 1
      = st.tasks.length := by
    rw [hneg, hcount] at hsplit
    rw [hfl]
    omega
  have hlt : (st.tasks.filter (fun t => !jsStrictEq t.id i)).length < st.tasks.length := by
    omega
  have hYtasks : (deleteTask st i now).2.tasks
      = st.tasks.filter (fun t => !jsStrictEq t.id i) := by
    simp [deleteTask, hlt, saveToStorage]
  refine ⟨by simp [deleteTask, hlt], ?_, ?_, ?_⟩
  · rw [hYtasks]
    exact hlen
  · have hall2 : (deleteTask st i now).2.tasks.filter (fun t => !jsStrictEq t.id i)
        = (deleteTask st i now).2.tasks := by
      rw [hYtasks]
      exact List.filter_eq_self.mpr fun a ha => (List.mem_filter.mp ha).2
    set Y := (deleteTask st i now).2 with hY
    show deleteTask Y i now2 = (false, Y)
    unfold deleteTask
    rw [hall2]
    simp
  · intro j hj
    have hkeep : st.tasks.filter (fun t => !jsStrictEq t.id j) = st.tasks :=
      List.filter_eq_self.mpr fun a ha => by
        simpa using (List.all_eq_true.mp hj) a ha
    unfold deleteTask
    rw [hkeep]
    simp

/-- C6 witness: deleting the first concrete task once and twice, and
deleting an absent id. -/
theorem c6_deleteTask_witness :
    (deleteTask sampleSt (.str "task_100_aaaaaaaaa") "t7").1 = true ∧
    (deleteTask sampleSt (.str "task_100_aaaaaaaaa") "t7").2.tasks.length + 1
      = sampleSt.tasks.length ∧
    deleteTask (deleteTask sampleSt (.str "task_100_aaaaaaaaa") "t7").2
      (.str "task_100_aaaaaaaaa") "t8"
      = (false, (deleteTask sampleSt (.str "task_100_aaaaaaaaa") "t7").2) ∧
    deleteTask sampleSt (.str "task_absent") "t7" = (false, sampleSt) := by
  have h := c6_deleteTask sampleSt (.str "task_100_aaaaaaaaa") "t7" "t8"
    (by decide) (by decide)
  exact ⟨h.1, h.2.1, h.2.2.1, h.2.2.2 (.str "task_absent") (by decide)⟩

/-- C7 counterexample: the list operation's copy is shallow.  In the
one-task reference store, taking the first element of the array
returned for the `'all'` filter and assigning its completion field (a
mutation performed on the returned value) changes the store's observed
collection, contradicting the claim that no mutation on the returned
value can do so. -/
theorem c7_element_mutation_changes_store :
    observedRefTasks
        (writeRef sampleRefSt ((getFilteredTaskRefs sampleRefSt (.str "all")).getD 0 0)
          { sampleTask1 with completed := .bool true })
      ≠ observedRefTasks sampleRefSt := by
  intro h
  have e1 : observedRefTasks
      (writeRef sampleRefSt ((getFilteredTaskRefs sampleRefSt (.str "all")).getD 0 0)
        { sampleTask1 with completed := .bool true })
      = [{ sampleTask1 with completed := .bool true }] := rfl
  have e2 : observedRefTasks sampleRefSt = [sampleTask1] := rfl
  rw [e1, e2] at h
  injection h with hh _
  have hc := congrArg Task.completed hh
  simp [sampleTask1] at hc

/-- C7 amended.  The sequence returned by the list operation is a new
array, so the store's membership cannot be altered through it (the
store's reference list survives any element mutation untouched), but
its elements are the store's own task objects: every returned element
is one of the store's references, and writing a different task value
through such a reference changes the store's observed collection. -/
theorem c7_list_shallow_copy (st : RefStore) (f : JsValue) (r : Nat) (t' : Task)
    (hr : r ∈ getFilteredTaskRefs st f)
    (hb : r < st.heap.length)
    (hne : t' ≠ heapGet st r) :
    r ∈ st.taskRefs ∧
    (writeRef st r t').taskRefs = st.taskRefs ∧
    observedRefTasks (writeRef st r t') ≠ observedRefTasks st := by
  have hmem : r ∈ st.taskRefs := by
    unfold getFilteredTaskRefs at hr
    split at hr
    · exact List.mem_of_mem_filter hr
    · split at hr
      · exact List.mem_of_mem_filter hr
      · exact hr
  refine ⟨hmem, rfl, ?_⟩
  obtain ⟨k, hk, hkr⟩ := List.mem_iff_getElem.mp hmem
  intro h
  have h2 := congrArg (fun l => l[k]?) h
  simp only [observedRefTasks, List.getElem?_map] at h2
  have hget : st.taskRefs[k]? = some r := by
    rw [List.getElem?_eq_getElem hk, hkr]
  have hwr : (writeRef st r t').taskRefs = st.taskRefs := rfl
  rw [hwr, hget] at h2
  simp only [Option.map_some'] at h2
  injection h2 with h3
  have h4 : heapGet (writeRef st r t') r = t' := by
    simp [heapGet, writeRef, List.getD_eq_getElem?_getD, List.getElem?_set_self hb]
  rw [h4] at h3
  exact hne h3

/-- C7 witness: the amended theorem at the concrete one-task reference
store, writing a completed copy of the task through the reference
returned for the `'all'` filter. -/
theorem c7_list_shallow_copy_witness :
    (0 : Nat) ∈ sampleRefSt.taskRefs ∧
    (writeRef sampleRefSt 0 { sampleTask1 with completed := .bool true }).taskRefs
      = sampleRefSt.taskRefs ∧
    observedRefTasks (writeRef sampleRefSt 0 { sampleTask1 with completed := .bool true })
      ≠ observedRefTasks sampleRefSt := by
  exact c7_list_shallow_copy sampleRefSt (.str "all") 0
    { sampleTask1 with completed := .bool true }
    (by decide) (by decide)
    (by simp [sampleTask1, heapGet, sampleRefSt])

/-- C8.  `editTask` never touches the persisted slot (no save is
triggered by the edit operation itself); an absent id or invalid new
text returns `none` with the whole state unchanged; on success the
returned task carries the trimmed new text. -/
theorem c8_editTask (st : St) (i newText : JsValue) (now : String) :
    (editTask st i newText now).2.slot = st.slot ∧
    (st.tasks.find? (fun u => jsStrictEq u.id i) = none →
      editTask st i newText now = (none, st)) ∧
    (Task.isValidText newText = false →
      editTask st i newText now = (none, st)) ∧
    (∀ t : Task, st.tasks.find? (fun u => jsStrictEq u.id i) = some t →
      Task.isValidText newText = true →
      (editTask st i newText now).1
        = some { t with text := trimOf newText, updatedAt := .str now }) := by
  refine ⟨?_, ?_, ?_, ?_⟩
  · simp only [editTask]
    cases hf : st.tasks.find? (fun u => jsStrictEq u.id i) with
    | none => rfl
    | some t =>
        cases hu : Task.updateText t newText now with
        | none => simp [hu]
        | some t2 => simp [hu]
  · intro hn
    simp [editTask, hn]
  · intro hv
    simp only [editTask]
    cases hf : st.tasks.find? (fun u => jsStrictEq u.id i) with
    | none => rfl
    | some t => simp [Task.updateText, hv]
  · intro t hf hv
    simp [editTask, hf, Task.updateText, hv]

theorem textsValid_replaceFirst (p : Task → Bool) (t' : Task) (l : List Task)
    (h : textsValid l = true) (ht : Task.isValidText t'.text = true) :
    textsValid (replaceFirst p (fun _ => t') l) = true := by
  induction l with
  | nil => rfl
  | cons a rest ih =>
    simp only [textsValid, List.all_cons, Bool.and_eq_true] at h
    by_cases hpa : p a = true
    · simp [replaceFirst, hpa, textsValid, ht, List.all_eq_true]
      intro u hu
      exact List.all_eq_true.mp h.2 u hu
    · have hpa' : p a = false := by simpa using hpa
      simp only [replaceFirst, hpa', Bool.false_eq_true, if_false]
      simp only [textsValid, List.all_cons, Bool.and_eq_true]
      exact ⟨h.1, ih h.2⟩

/-- C9.  Text validity is an invariant of the store's operations: if
every task's text passes validation, it still does after any
`addTask`, `toggleTask` or `editTask`; an attempt to set invalid text
fails (`editTask` returns `none` with the state unchanged, and
`Task.updateText` itself throws, leaving text and `updatedAt` both
untouched). -/
theorem c9_text_invariant (st : St) (h : textsValid st.tasks = true) :
    (∀ (txt : JsValue) (fid now : String),
      textsValid ((addTask st txt fid now).2.tasks) = true) ∧
    (∀ (i : JsValue) (now : String),
      textsValid ((toggleTask st i now).2.tasks) = true) ∧
    (∀ (i txt : JsValue) (now : String),
      textsValid ((editTask st i txt now).2.tasks) = true) ∧
    (∀ (i txt : JsValue) (now : String), Task.isValidText txt = false →
      editTask st i txt now = (none, st)) ∧
    (∀ (t : Task) (txt : JsValue) (now : String), Task.isValidText txt = false →
      Task.updateText t txt now = none) := by
  have hedit : ∀ (i txt : JsValue) (now : String), Task.isValidText txt = false →
      editTask st i txt now = (none, st) := by
    intro i txt now hv
    simp only [editTask]
    cases hf : st.tasks.find? (fun u => jsStrictEq u.id i) with
    | none => rfl
    | some t => simp [Task.updateText, hv]
  refine ⟨?_, ?_, ?_, hedit, ?_⟩
  · intro txt fid now
    by_cases hv : Task.isValidText txt = true
    · simp only [addTask, hv, Bool.not_true, Bool.false_eq_true, if_false,
        Task.create, if_true, saveToStorage]
      simp only [textsValid, List.all_append, Bool.and_eq_true]
      refine ⟨h, ?_⟩
      obtain ⟨s, hs⟩ := isValidText_isStr hv
      subst hs
      simp [trimOf, List.all_cons, isValidText_jsTrim s hv]
    · have hv' : Task.isValidText txt = false := by simpa using hv
      simp [addTask, hv']
      exact h
  · intro i now
    simp only [toggleTask]
    cases hf : st.tasks.find? (fun u => jsStrictEq u.id i) with
    | none => exact h
    | some t =>
      simp only [saveToStorage]
      apply textsValid_replaceFirst _ _ _ h
      have ht : Task.isValidText t.text = true :=
        List.all_eq_true.mp h t (List.mem_of_find?_eq_some hf)
      simpa [Task.toggle] using ht
  · intro i txt now
    simp only [editTask]
    cases hf : st.tasks.find? (fun u => jsStrictEq u.id i) with
    | none => exact h
    | some t =>
      by_cases hv : Task.isValidText txt = true
      · simp only [Task.updateText, hv, if_true]
        apply textsValid_replaceFirst _ _ _ h
        obtain ⟨s, hs⟩ := isValidText_isStr hv
        subst hs
        simpa [trimOf] using isValidText_jsTrim s hv
      · have hv' : Task.isValidText txt = false := by simpa using hv
        simp only [Task.updateText, hv', Bool.false_eq_true, if_false]
        exact h
  · intro t txt now hv
    simp [Task.updateText, hv]


/-- C8 witness: editing the first concrete task with valid text, an
absent id, and whitespace-only text. -/
theorem c8_editTask_witness :
    (editTask sampleSt (.str "task_100_aaaaaaaaa") (.str " milk! ") "t7").2.slot
      = sampleSt.slot ∧
    editTask sampleSt (.str "task_zzz") (.str "ok") "t7" = (none, sampleSt) ∧
    editTask sampleSt (.str "task_100_aaaaaaaaa") (.str "   ") "t7" = (none, sampleSt) ∧
    (editTask sampleSt (.str "task_100_aaaaaaaaa") (.str " milk! ") "t7").1
      = some { sampleTask1 with text := trimOf (.str " milk! "), updatedAt := .str "t7" } := by
  have h1 := c8_editTask sampleSt (.str "task_100_aaaaaaaaa") (.str " milk! ") "t7"
  have h2 := c8_editTask sampleSt (.str "task_zzz") (.str "ok") "t7"
  have h3 := c8_editTask sampleSt (.str "task_100_aaaaaaaaa") (.str "   ") "t7"
  exact ⟨h1.1, h2.2.1 rfl, h3.2.2.1 (by decide), h1.2.2.2 sampleTask1 rfl (by decide)⟩

/-- C9 witness: the invariant theorem applied to the concrete
two-task state. -/
theorem c9_text_invariant_witness :
    textsValid sampleSt.tasks = true ∧
    textsValid ((addTask sampleSt (.str "  wash car ") "task_9" "t9").2.tasks) = true ∧
    textsValid ((toggleTask sampleSt (.str "task_100_aaaaaaaaa") "t9").2.tasks) = true ∧
    textsValid ((editTask sampleSt (.str "task_100_aaaaaaaaa") (.str " milk ") "t9").2.tasks)
      = true ∧
    editTask sampleSt (.str "task_100_aaaaaaaaa") (.str "   ") "t9" = (none, sampleSt) ∧
    Task.updateText sampleTask1 (.str "   ") "t9" = none := by
  have h := c9_text_invariant sampleSt (by decide)
  exact ⟨by decide, h.1 _ "task_9" "t9", h.2.1 _ "t9", h.2.2.1 _ _ "t9",
    h.2.2.2.1 _ _ "t9" (by decide), h.2.2.2.2 sampleTask1 _ "t9" (by decide)⟩

theorem fromObject_notNullish (e : JsValue) (h : notNullish e = true) :
    Task.fromObject e = some (rawTask e) := by
  cases e <;> simp_all [notNullish, Task.fromObject, jsGet, jsGetD, rawTask]

theorem mapM_fromObject_notNullish (es : List JsValue) (h : es.all notNullish = true) :
    es.mapM Task.fromObject = some (es.map rawTask) := by
  induction es with
  | nil => rfl
  | cons e rest ih =>
    simp only [List.all_cons, Bool.and_eq_true] at h
    simp only [List.map_cons, List.mapM_cons, fromObject_notNullish e h.1, ih h.2,
      Option.some_bind, Option.pure_def]
    rfl

theorem loadParsed_tasks_array (stA : St) (v : JsValue) (es : List JsValue)
    (hv : truthy v = true) (hts : jsGetD v "tasks" = .arr es)
    (hes : es.all notNullish = true) :
    (loadParsed stA v).map (fun r => (r.1, r.2.tasks)) = some (true, es.map rawTask) := by
  have hg := truthy_jsGet v "tasks" hv
  rw [hts] at hg
  have hg2 := truthy_jsGet v "settings" hv
  simp only [loadParsed, hv, Bool.not_true, Bool.false_eq_true, if_false,
    Option.bind_eq_bind, hg, Option.pure_def, Option.some_bind]
  rw [mapM_fromObject_notNullish es hes]
  simp only [Option.some_bind, hg2]
  by_cases hset : truthy (jsGetD v "settings") = true
  · have hg3 := truthy_jsGet (jsGetD v "settings") "currentFilter" hset
    simp [hset, hg3]
  · have hset2 : truthy (jsGetD v "settings") = false := by simpa using hset
    simp [hset2]

/-- C10 counterexample: a stored value that parses to an object whose
tasks field is the array holding a single JSON `null` element.  The
claim says `loadFromStorage` succeeds and replaces the collection with
one task per array element; instead property access inside
`Task.fromObject` throws a `TypeError`, the `catch` returns `false`,
and the collection is left unchanged. -/
theorem c10_load_null_element_fails :
    (loadFromStorage storedNullTaskSt).1 = false ∧
    (loadFromStorage storedNullTaskSt).2 = storedNullTaskSt := ⟨rfl, rfl⟩

/-- C10 amended.  If the stored value parses to a truthy value whose
tasks field is an array none of whose elements is `null` (or the
unparseable-from-JSON `undefined`), `loadFromStorage` succeeds and
replaces the collection with one task per element, copying the five
fields verbatim with no per-field validation — missing fields become
`undefined`, so loaded tasks may have empty, over-long or missing
text, non-boolean completion flags, or duplicated ids.  An array
containing `null` instead makes the load return `false` and leaves
the collection unchanged. -/
theorem c10_load_copies_verbatim (st : St) (v : JsValue) (es : List JsValue)
    (hslot : st.slot = .value v) (hv : truthy v = true)
    (hts : jsGetD v "tasks" = .arr es) (hes : es.all notNullish = true) :
    (loadFromStorage st).1 = true ∧
    (loadFromStorage st).2.tasks = es.map rawTask := by
  rw [loadFromStorage_slot_value st v hslot]
  have h := loadParsed_tasks_array st v es hv hts hes
  cases hl : loadParsed st v with
  | none => rw [hl] at h; simp at h
  | some r =>
    rw [hl] at h
    simp only [Option.map_some'] at h
    injection h with hpair
    injection hpair with h1 h2
    exact ⟨h1, h2⟩

/-- C10 witness: loading the concrete slot that stores two invalid
task records (empty text, duplicated ids, numeric completion flag)
succeeds and copies them verbatim. -/
theorem c10_load_copies_verbatim_witness :
    (loadFromStorage garbageStoredSt).1 = true ∧
    (loadFromStorage garbageStoredSt).2.tasks
      = [.obj [("id", .str "dup"), ("text", .str "")],
         .obj [("id", .str "dup"), ("text", .str "x"), ("completed", .num 7)]].map rawTask := by
  exact c10_load_copies_verbatim garbageStoredSt
    (.obj [("tasks", .arr [.obj [("id", .str "dup"), ("text", .str "")],
                           .obj [("id", .str "dup"), ("text", .str "x"), ("completed", .num 7)]]),
           ("settings", .obj [("currentFilter", .str "completed")])])
    [.obj [("id", .str "dup"), ("text", .str "")],
     .obj [("id", .str "dup"), ("text", .str "x"), ("completed", .num 7)]]
    rfl rfl rfl (by decide)

end TodoApp

